import Mathlib

/-!
Verification of the prudent-wealth-advisor backend.

This file gives a shallow embedding, in Lean 4, of the parts of the
repository that the specification's claims are about:

* `src/prudent_wealth/agent/nodes.py` — profile extraction
  (`extract_profile_updates`) and the profile-merging node
  (`check_profile_node`);
* `src/prudent_wealth/agent/graph.py` — the `should_advice` routing
  function together with the conditional-edge mapping of the router;
* `src/prudent_wealth/api/streaming.py` — `parse_message_chunk`,
  `yield_from_buffer` and `stream_response`, the SSE formatter.

Python strings are modelled as `List Char`.  Python `str.lower` is modelled
by ASCII lowercasing (`Char.toLower`), which agrees with CPython on the
ASCII inputs the extraction patterns are concerned with.  The regular
expressions used by the extractor are embedded as explicit leftmost-search
scanning functions whose behaviour matches Python `re.search` on those
particular patterns (the patterns are simple enough that greedy matching
without backtracking is exact; this is argued pattern by pattern in the
doc comments below).  Wall-clock fields of outbound chunks (`id`,
`created`, `model`, `object`) are constants of the turn and are omitted
from the chunk model; a chunk is modelled by its semantic payload: the
delta (content / reasoning_content / role) and the finish reason.
-/

namespace PrudentWealth

/-- Python strings are modelled as lists of characters. -/
abbrev Str := List Char

/-- The apostrophe character (written via its code point). -/
def apos : Char := Char.ofNat 39

/-- Boolean test that `p` is a prefix of `l` (character-wise). -/
def isPrefixChars : Str → Str → Bool
  | [], _ => true
  | _ :: _, [] => false
  | a :: as, b :: bs => a == b && isPrefixChars as bs

/-- Model of the Python substring test `needle in haystack`. -/
def containsSub (needle : Str) : Str → Bool
  | [] => needle.isEmpty
  | c :: t => isPrefixChars needle (c :: t) || containsSub needle t

/-- Model of Python `str.lower` (ASCII). -/
def lowerStr (s : Str) : Str := s.map Char.toLower

/-- Numeric value of a digit character. -/
def digitVal (c : Char) : Nat := c.toNat - '0'.toNat

/-! ### models.py -/

/-- Model of the `risk_tolerance` literal values of `UserProfile`
(`src/prudent_wealth/models.py`). -/
inductive RiskTolerance where
  | conservative
  | moderate
  | aggressive
deriving DecidableEq, Repr

/-- Model of `UserProfile` (`src/prudent_wealth/models.py`): all profile
fields are optional; `financial_goals` defaults to the empty list. -/
structure UserProfile where
  age : Option Nat := none
  risk_tolerance : Option RiskTolerance := none
  time_horizon_years : Option Nat := none
  financial_goals : List Str := []
deriving DecidableEq, Repr

/-- Model of `UserProfile.is_complete`. -/
def UserProfile.is_complete (p : UserProfile) : Bool :=
  p.age.isSome && p.risk_tolerance.isSome && p.time_horizon_years.isSome

/-- Model of the LangChain message classes used by the agent: only the
constructor (role) and the string content matter to the embedded code. -/
inductive LCMessage where
  | human (content : Str)
  | ai (content : Str)
  | system (content : Str)
  | tool (content : Str)
deriving DecidableEq, Repr

/-! ### nodes.py — age extraction

`extract_profile_updates` runs `re.search` with three age patterns:

1. `i(?:'m| am) (\d{2,3})(?: years old)?`
2. `(\d{2,3}) years old`
3. `age[:\s]+(\d{2,3})`

Each is embedded as a match-at-position function; `searchPos` then scans
all start positions left to right, which is exactly `re.search`'s
leftmost-match rule.  In every pattern the capture `\d{2,3}` is greedy and
nothing after it can force backtracking into it (the optional tail groups
can always match the empty string, and in pattern 2 a digit can never be
the first character of the literal tail), so the captured number at a given
start position is: the three-digit value if three digits are present (and,
for pattern 2, followed by the literal tail), else the two-digit value. -/

/-- Greedy capture of `\d{2,3}` with no mandatory tail: three digits if
available, else two digits, else no match. -/
def grabAge23 : Str → Option Nat
  | a :: b :: c :: _ =>
    if a.isDigit && b.isDigit && c.isDigit then
      some (digitVal a * 100 + digitVal b * 10 + digitVal c)
    else if a.isDigit && b.isDigit then
      some (digitVal a * 10 + digitVal b)
    else none
  | [a, b] =>
    if a.isDigit && b.isDigit then some (digitVal a * 10 + digitVal b) else none
  | _ => none

/-- Match of age pattern 1 at one start position: literal `i'm ` or
`i am `, then a greedy 2-3 digit capture (the ` years old` tail is
optional and unconstrained). -/
def ageP1At (l : Str) : Option Nat :=
  if isPrefixChars ['i', apos, 'm', ' '] l then grabAge23 (l.drop 4)
  else if isPrefixChars ("i am ".toList) l then grabAge23 (l.drop 5)
  else none

/-- Match of age pattern 2 at one start position: 2-3 digits (greedy,
three preferred) followed by the literal ` years old`. -/
def ageP2At (l : Str) : Option Nat :=
  match l with
  | a :: b :: c :: rest =>
    if a.isDigit && b.isDigit && c.isDigit
        && isPrefixChars (" years old".toList) rest then
      some (digitVal a * 100 + digitVal b * 10 + digitVal c)
    else if a.isDigit && b.isDigit
        && isPrefixChars (" years old".toList) (c :: rest) then
      some (digitVal a * 10 + digitVal b)
    else none
  | _ => none

/-- Characters matched by the class `[:\s]` (Python `\s` over ASCII). -/
def isAgeSep (c : Char) : Bool :=
  c == ':' || c == ' ' || c == '\t' || c == '\n' || c == '\r'
    || c == Char.ofNat 11 || c == Char.ofNat 12

/-- Match of age pattern 3 at one start position: literal `age`, then a
nonempty run of `[:\s]`, then a greedy 2-3 digit capture. -/
def ageP3At (l : Str) : Option Nat :=
  if isPrefixChars ("age".toList) l then
    let rest := l.drop 3
    if (rest.takeWhile isAgeSep).isEmpty then none
    else grabAge23 (rest.dropWhile isAgeSep)
  else none

/-- Leftmost search: model of `re.search` for a pattern embedded as a
match-at-position function. -/
def searchPos (f : Str → Option Nat) : Str → Option Nat
  | [] => f []
  | c :: t =>
    match f (c :: t) with
    | some n => some n
    | none => searchPos f t

/-- Model of the age-pattern loop of `extract_profile_updates`
(`nodes.py` lines 59-70): patterns are tried in order and the loop breaks
at the first pattern that matches, whether or not the matched age passes
the later range check. -/
def matchAge (content : Str) : Option Nat :=
  match searchPos ageP1At content with
  | some n => some n
  | none =>
    match searchPos ageP2At content with
    | some n => some n
    | none => searchPos ageP3At content

/-! ### nodes.py — risk tolerance and time horizon -/

/-- Model of the risk-tolerance if/elif chain of `extract_profile_updates`
(`nodes.py` lines 72-83), applied to the lowercased message content;
`none` means the chain assigned nothing. -/
def riskFromContent (c : Str) : Option RiskTolerance :=
  if containsSub ("conservative".toList) c && containsSub ("risk".toList) c then
    some .conservative
  else if containsSub ("aggressive".toList) c && containsSub ("risk".toList) c then
    some .aggressive
  else if containsSub ("moderate".toList) c && containsSub ("risk".toList) c then
    some .moderate
  else if containsSub ("i prefer conservative".toList) c
      || containsSub ("low risk".toList) c then
    some .conservative
  else if containsSub ("i prefer aggressive".toList) c
      || containsSub ("high risk".toList) c then
    some .aggressive
  else none

/-- Numeric value of a digit run. -/
def numVal (ds : Str) : Nat := ds.foldl (fun acc c => acc * 10 + digitVal c) 0

/-- Greedy capture of `\d+`: the maximal (nonempty) digit run and the
remaining input. -/
def grabNum (l : Str) : Option (Nat × Str) :=
  let ds := l.takeWhile Char.isDigit
  if ds.isEmpty then none else some (numVal ds, l.dropWhile Char.isDigit)

/-- Characters matched by Python `\s` (ASCII). -/
def isPyWs (c : Char) : Bool :=
  c == ' ' || c == '\t' || c == '\n' || c == '\r'
    || c == Char.ofNat 11 || c == Char.ofNat 12

/-- Greedy `\s*`. -/
def dropWs (l : Str) : Str := l.dropWhile isPyWs

/-- Strip a literal prefix, failing when it is absent. -/
def stripLit (p : Str) (l : Str) : Option Str :=
  if isPrefixChars p l then some (l.drop p.length) else none

/-- Greedy optional `s?` after the literal `year`. -/
def stripOptS : Str → Str
  | 's' :: t => t
  | l => l

/-- Greedy optional group `(?:time\s*)?`. -/
def stripOptTime (l : Str) : Str :=
  match stripLit ("time".toList) l with
  | some r => dropWs r
  | none => l

/-- Greedy optional group `(?:of\s*)?`. -/
def stripOptOf (l : Str) : Str :=
  match stripLit ("of".toList) l with
  | some r => dropWs r
  | none => l

/-- Greedy optional group `(?:ing)?`. -/
def stripOptIng (l : Str) : Str :=
  match stripLit ("ing".toList) l with
  | some r => r
  | none => l

/-- Match of horizon pattern `(\d+)\s*years?\s*(?:time\s*)?horizon` at one
start position.  Greedy matching without backtracking is exact here: no
character given back by `\d+` or `\s*` can start the literal that follows
it, and each optional group can only succeed where skipping it would
fail. -/
def horizonP1At (l : Str) : Option Nat := do
  let (n, r1) ← grabNum l
  let r3 ← stripLit ("year".toList) (dropWs r1)
  let r6 := stripOptTime (dropWs (stripOptS r3))
  let _ ← stripLit ("horizon".toList) r6
  pure n

/-- Match of horizon pattern `horizon\s*(?:of\s*)?(\d+)\s*years?` at one
start position. -/
def horizonP2At (l : Str) : Option Nat := do
  let r1 ← stripLit ("horizon".toList) l
  let (n, r4) ← grabNum (stripOptOf (dropWs r1))
  let _ ← stripLit ("year".toList) (dropWs r4)
  pure n

/-- Match of horizon pattern `invest(?:ing)?\s*for\s*(\d+)\s*years?` at
one start position. -/
def horizonP3At (l : Str) : Option Nat := do
  let r1 ← stripLit ("invest".toList) l
  let r4 ← stripLit ("for".toList) (dropWs (stripOptIng r1))
  let (n, r6) ← grabNum (dropWs r4)
  let _ ← stripLit ("year".toList) (dropWs r6)
  pure n

/-- Match of horizon pattern `retire\s*in\s*(\d+)\s*years?` at one start
position. -/
def horizonP4At (l : Str) : Option Nat := do
  let r1 ← stripLit ("retire".toList) l
  let r3 ← stripLit ("in".toList) (dropWs r1)
  let (n, r5) ← grabNum (dropWs r3)
  let _ ← stripLit ("year".toList) (dropWs r5)
  pure n

/-- Model of the horizon-pattern loop of `extract_profile_updates`
(`nodes.py` lines 86-96): first matching pattern wins. -/
def matchHorizon (content : Str) : Option Nat :=
  match searchPos horizonP1At content with
  | some n => some n
  | none =>
    match searchPos horizonP2At content with
    | some n => some n
    | none =>
      match searchPos horizonP3At content with
      | some n => some n
      | none => searchPos horizonP4At content

/-! ### nodes.py — extract_profile_updates and check_profile_node -/

/-- Model of the `updates` dict built by `extract_profile_updates`: a key
is present exactly when the corresponding field is `some`. -/
structure ProfileUpdates where
  age : Option Nat := none
  risk_tolerance : Option RiskTolerance := none
  time_horizon_years : Option Nat := none
deriving DecidableEq, Repr

/-- Python dict truthiness of the `updates` dict. -/
def ProfileUpdates.nonempty (u : ProfileUpdates) : Bool :=
  u.age.isSome || u.risk_tolerance.isSome || u.time_horizon_years.isSome

/-- One iteration of the message loop of `extract_profile_updates`
(`nodes.py` lines 52-96): non-human messages are skipped; for a human
message the content is lowercased, then the age patterns (with the
18..120 range check), the risk-tolerance chain and the horizon patterns
each either overwrite their key in `updates` or leave it unchanged. -/
def updatesStep (u : ProfileUpdates) (msg : LCMessage) : ProfileUpdates :=
  match msg with
  | .human c0 =>
    let c := lowerStr c0
    let u1 :=
      match matchAge c with
      | some a => if 18 ≤ a && a ≤ 120 then { u with age := some a } else u
      | none => u
    let u2 :=
      match riskFromContent c with
      | some r => { u1 with risk_tolerance := some r }
      | none => u1
    match matchHorizon c with
    | some h => { u2 with time_horizon_years := some h }
    | none => u2
  | _ => u

/-- Model of `extract_profile_updates` (`nodes.py` lines 48-98). -/
def extract_profile_updates (messages : List LCMessage) : ProfileUpdates :=
  messages.foldl updatesStep {}

/-- Model of the dict merge `UserProfile(**{**profile.model_dump(), **updates})`
in `check_profile_node`: a key present in `updates` overwrites the dumped
profile value, an absent key leaves it. -/
def mergeProfile (p : UserProfile) (u : ProfileUpdates) : UserProfile :=
  { age := match u.age with | some a => some a | none => p.age
    risk_tolerance :=
      match u.risk_tolerance with | some r => some r | none => p.risk_tolerance
    time_horizon_years :=
      match u.time_horizon_years with | some h => some h | none => p.time_horizon_years
    financial_goals := p.financial_goals }

/-- Model of the `AgentState` TypedDict fields read by the embedded nodes;
`intent` is `none` when the state's value is Python `None`, and
`user_profile` is `none` when it is `None`. -/
structure AgentState where
  intent : Option String := none
  messages : List LCMessage := []
  user_profile : Option UserProfile := none
  profile_complete : Bool := false

/-- Model of the partial state update returned by `check_profile_node`. -/
structure CheckProfileResult where
  profile_complete : Bool
  user_profile : UserProfile
deriving DecidableEq, Repr

/-- Model of `check_profile_node` (`nodes.py` lines 11-23). -/
def check_profile_node (state : AgentState) : CheckProfileResult :=
  let profile := state.user_profile.getD {}
  let updates := extract_profile_updates state.messages
  let profile := if updates.nonempty then mergeProfile profile updates else profile
  { profile_complete := profile.is_complete, user_profile := profile }

/-! ### graph.py — routing -/

/-- Nodes of the compiled LangGraph workflow (`graph.py`), with `terminal`
standing for LangGraph's `END`. -/
inductive GraphNode where
  | router
  | smalltalk
  | check_profile
  | agent
  | tools
  | terminal
deriving DecidableEq, Repr

/-- Model of `should_advice` (`graph.py` lines 80-90): `state["intent"]`
is modelled as `Option String`, with `none` for Python `None`; the Python
truthiness test `if not intent` also treats the empty string as absent. -/
def should_advice (intent : Option String) : String :=
  match intent with
  | none => "end"
  | some s =>
    if s = "" then "end"
    else if s = "small_talk" then "smalltalk"
    else if s = "main_agent" then "agent"
    else "end"

/-- Model of the conditional-edge mapping installed on the router
(`graph.py` lines 92-96): `{"smalltalk": smalltalk, "agent": agent,
"end": END}`. -/
def routerEdgeMap (label : String) : GraphNode :=
  if label = "smalltalk" then .smalltalk
  else if label = "agent" then .agent
  else .terminal

/-- The node the graph transitions to from the router for a given
intent. -/
def routerNext (intent : Option String) : GraphNode :=
  routerEdgeMap (should_advice intent)

/-! ### streaming.py — data model

A LangChain message chunk is modelled by whether it is an
`AIMessageChunk` and by its `content`, which is either a plain string or
a list of content blocks; a block is a dict tagged `thinking` or `text`
(carrying its text), some other dict, or a non-dict item. -/

/-- One element of a structured `content` list. -/
inductive ContentBlock where
  | thinking (s : Str)
  | text (s : Str)
  | otherDict
  | nonDict
deriving DecidableEq, Repr

/-- The `content` attribute of a message chunk. -/
inductive MsgContent where
  | str (s : Str)
  | blocks (items : List ContentBlock)
deriving DecidableEq, Repr

/-- A LangChain message chunk, as far as `parse_message_chunk` inspects
it. -/
structure StreamMsg where
  isAIMessageChunk : Bool
  content : MsgContent
deriving DecidableEq, Repr

/-- Python truthiness of `chunk.content`: an empty string and an empty
list are falsy. -/
def contentTruthy : MsgContent → Bool
  | .str s => !s.isEmpty
  | .blocks l => !l.isEmpty

/-- Model of `re.sub(r"\n{1,}", "\\n", s)`: every maximal run of newline
characters is collapsed to a single newline (in Python, the replacement
text `\n` denotes a real newline). -/
def collapseNewlines : Str → Str
  | [] => []
  | [c] => [c]
  | a :: b :: rest =>
    if a == '\n' && b == '\n' then collapseNewlines (b :: rest)
    else a :: collapseNewlines (b :: rest)

/-- Model of the `DeltaContent` schema (`schemas.py`): every field
defaults to Python `None`. -/
structure DeltaContent where
  content : Option Str := none
  reasoning_content : Option Str := none
  role : Option String := none
deriving DecidableEq, Repr

/-- Model of `ChatCompletionChoice` as produced by the streaming code
(the `index` field is always 0 and is omitted). -/
structure Choice where
  delta : DeltaContent
  finish_reason : Option String
deriving DecidableEq, Repr

/-- Model of `parse_message_chunk` (`streaming.py` lines 22-65).  A chunk
that is not an `AIMessageChunk`, or whose content is falsy, is rejected;
string content falls through the `isinstance(..., list)` branch and
reaches the implicit `return None`, as does a first list element that is
not a dict or is a dict with an unknown `type` tag.  Only the first list
element is ever inspected. -/
def parse_message_chunk (chunk : StreamMsg) : Option Choice :=
  if !chunk.isAIMessageChunk || !contentTruthy chunk.content then none
  else
    match chunk.content with
    | .str _ => none
    | .blocks [] => none
    | .blocks (item :: _) =>
      match item with
      | .thinking s =>
        some ⟨{ reasoning_content := some (collapseNewlines s),
                role := some "assistant" }, none⟩
      | .text s =>
        some ⟨{ content := some (collapseNewlines s),
                role := some "assistant" }, none⟩
      | .otherDict => none
      | .nonDict => none

/-! ### streaming.py — stream_response -/

/-- The two buffered delta fields. -/
inductive Field where
  | content
  | reasoning
deriving DecidableEq, Repr

/-- An item yielded by `stream_response`: an SSE data chunk (modelled by
its delta and finish reason) or the literal `data: [DONE]` sentinel. -/
inductive OutItem where
  | chunk (delta : DeltaContent) (finish_reason : Option String)
  | done
deriving DecidableEq, Repr

/-- Split a string at its last newline: `some (a, b)` with `a` ending in
the last newline and `b` the remainder, or `none` when no newline occurs.
This models `buffer_text.rfind("\n")` together with the two slices taken
from the found index. -/
def splitLastNL : Str → Option (Str × Str)
  | [] => none
  | c :: rest =>
    match splitLastNL rest with
    | some (a, b) => some (c :: a, b)
    | none => if c == '\n' then some ([c], rest) else none

/-- Write `s` into the delta field selected by `field_name`. -/
def setField (d : DeltaContent) (field : Field) (s : Str) : DeltaContent :=
  match field with
  | .content => { d with content := some s }
  | .reasoning => { d with reasoning_content := some s }

/-- Model of `yield_from_buffer` (`streaming.py` lines 102-139), which
yields exactly once per call: the result is the yielded SSE chunk (if
any), the new buffer content, and the new `is_first_chunk` flag.  Note
the embedded code appends a space to every yielded delta
(`to_yield + " "`). -/
def yield_from_buffer (is_first : Bool) (buffer_text : Str) (field : Field)
    (is_final : Bool) : Option OutItem × Str × Bool :=
  let split : Option (Str × Str) :=
    if is_final then some (buffer_text, [])
    else splitLastNL buffer_text
  match split with
  | none => (none, buffer_text, is_first)
  | some (to_yield, remaining) =>
    if to_yield.isEmpty then (none, remaining, is_first)
    else
      let d := setField {} field (to_yield ++ [' '])
      if is_first then
        (some (.chunk { d with role := some "assistant" } none), remaining, false)
      else
        (some (.chunk d none), remaining, is_first)

/-- Python truthiness of an optional string delta field. -/
def optTruthy : Option Str → Bool
  | some s => !s.isEmpty
  | none => false

/-- The local mutable state of one `stream_response` call. -/
structure StreamState where
  is_first_chunk : Bool
  content_buffer : Str
  reasoning_buffer : Str
deriving DecidableEq, Repr

/-- Initial stream state (`streaming.py` lines 98-100). -/
def initStreamState : StreamState := ⟨true, [], []⟩

/-- One event of the `graph.astream` loop in `messages` mode: the node
that emitted it (`metadata["langgraph_node"]`) and the message chunk. -/
structure StreamEvent where
  node : String
  msg : StreamMsg
deriving DecidableEq, Repr

/-- Append `text` to the buffer of `field` and run the non-final
`yield_from_buffer` pass, as the body of the event loop does for a parsed
delta (`streaming.py` lines 155-171); the buffer is always replaced by
the returned remainder. -/
def appendFlush (st : StreamState) (field : Field) (text : Str) :
    StreamState × List OutItem :=
  match field with
  | .content =>
    let r := yield_from_buffer st.is_first_chunk (st.content_buffer ++ text) .content false
    ({ st with content_buffer := r.2.1, is_first_chunk := r.2.2 }, r.1.toList)
  | .reasoning =>
    let r := yield_from_buffer st.is_first_chunk (st.reasoning_buffer ++ text) .reasoning false
    ({ st with reasoning_buffer := r.2.1, is_first_chunk := r.2.2 }, r.1.toList)

/-- Buffer-and-flush one delta field when it is Python-truthy, as the
guards `if choice.delta.content:` and `if choice.delta.reasoning_content:`
do; a falsy field leaves the state untouched and yields nothing. -/
def maybeAppend (st : StreamState) (field : Field) (o : Option Str) :
    StreamState × List OutItem :=
  if optTruthy o then appendFlush st field (o.getD []) else (st, [])

/-- Processing of one incoming event (`streaming.py` lines 141-171):
events from ignored nodes are dropped; otherwise the parsed delta's
truthy fields are buffered and flushed. -/
def stepEvent (ignore_nodes : List String) (st : StreamState) (e : StreamEvent) :
    StreamState × List OutItem :=
  if ignore_nodes.contains e.node then (st, [])
  else
    match parse_message_chunk e.msg with
    | none => (st, [])
    | some choice =>
      let s1 := maybeAppend st .content choice.delta.content
      let s2 := maybeAppend s1.1 .reasoning choice.delta.reasoning_content
      (s2.1, s1.2 ++ s2.2)

/-- The event loop of `stream_response`: fold `stepEvent` over the
incoming events, collecting yielded chunks in order. -/
def runEvents (ignore_nodes : List String) :
    StreamState → List StreamEvent → StreamState × List OutItem
  | st, [] => (st, [])
  | st, e :: rest =>
    let r := stepEvent ignore_nodes st e
    let rs := runEvents ignore_nodes r.1 rest
    (rs.1, r.2 ++ rs.2)

/-- The final buffer flushes of `stream_response` (`streaming.py` lines
173-183): each nonempty buffer is flushed with `is_final=True`; the
result is the yielded chunks and the final `is_first_chunk` flag. -/
def finalFlush (st : StreamState) : List OutItem × Bool :=
  let r1 :=
    if st.content_buffer.isEmpty then (none, st.content_buffer, st.is_first_chunk)
    else yield_from_buffer st.is_first_chunk st.content_buffer .content true
  let r2 :=
    if st.reasoning_buffer.isEmpty then (none, st.reasoning_buffer, r1.2.2)
    else yield_from_buffer r1.2.2 st.reasoning_buffer .reasoning true
  (r1.1.toList ++ r2.1.toList, r2.2.2)

/-- The closing chunk carrying `finish_reason = "stop"` and an empty
delta (`streaming.py` lines 185-195). -/
def stopChunk : OutItem := .chunk {} (some "stop")

/-- Model of `stream_response` (`streaming.py` lines 68-196): the full
sequence of items yielded for one turn. -/
def stream_response (ignore_nodes : List String) (events : List StreamEvent) :
    List OutItem :=
  let r := runEvents ignore_nodes initStreamState events
  r.2 ++ (finalFlush r.1).1 ++ [stopChunk, .done]

/-! ### Observation predicates on the emitted stream -/

/-- The whole emitted body of a turn before the closing `stop` chunk and
`[DONE]` sentinel: the chunks yielded by the event loop followed by the
final buffer flushes. -/
def turnBody (ignore_nodes : List String) (events : List StreamEvent) :
    List OutItem :=
  (runEvents ignore_nodes initStreamState events).2
    ++ (finalFlush (runEvents ignore_nodes initStreamState events).1).1

/-- A streamed data chunk with no finish reason (every chunk of the body
of a turn has this shape). -/
def isBodyChunk : OutItem → Bool
  | .chunk _ none => true
  | _ => false

/-- A chunk whose delta carries non-empty text in the `content` or
`reasoning_content` field. -/
def nonEmptyDelta : OutItem → Bool
  | .chunk d _ => optTruthy d.content || optTruthy d.reasoning_content
  | .done => false

/-- A chunk carrying the `role = "assistant"` marker. -/
def hasRole : OutItem → Bool
  | .chunk d _ => d.role == some "assistant"
  | .done => false

/-- A chunk with `finish_reason = "stop"`. -/
def isStopChunk : OutItem → Bool
  | .chunk _ (some r) => r == "stop"
  | _ => false

/-- The `data: [DONE]` sentinel. -/
def isDoneItem : OutItem → Bool
  | .done => true
  | _ => false

/-- Specification of a segment of emitted chunks relative to the
`is_first_chunk` flag: `GoodSeg b out b2` says every chunk of `out` is a
finish-less body chunk with non-empty delta text, the flag goes from `b`
to `b2 = b && out.isEmpty`, and the role marker sits exactly on the head
of `out` when `b` is true and nowhere otherwise. -/
def GoodSeg (b : Bool) (out : List OutItem) (b2 : Bool) : Prop :=
  (∀ x ∈ out, isBodyChunk x = true ∧ nonEmptyDelta x = true)
  ∧ b2 = (b && out.isEmpty)
  ∧ (match out with
     | [] => True
     | x :: xs => hasRole x = b ∧ ∀ y ∈ xs, hasRole y = false)

/-- The `content` deltas of an emitted stream, in emission order. -/
def contentDeltas (out : List OutItem) : List Str :=
  out.filterMap fun x =>
    match x with
    | .chunk d _ => d.content
    | .done => none

/-- The newline-normalized content text of the non-ignored events of a
turn, concatenated in order: the reference value that the claim C1 says
the emitted `content` deltas reconstruct byte-for-byte. -/
def turnContentText (ignore_nodes : List String) (events : List StreamEvent) :
    Str :=
  (events.filterMap fun e =>
    if ignore_nodes.contains e.node then none
    else (parse_message_chunk e.msg).bind fun c => c.delta.content).flatten

/-- Whether a string ends with a newline character. -/
def endsWithNewline (s : Str) : Bool := s.getLast? == some '\n'

/-- An event carrying one structured text block, as the repository's own
streaming tests build them. -/
def textEvent (node : String) (s : String) : StreamEvent :=
  ⟨node, ⟨true, .blocks [.text s.toList]⟩⟩

/-- The input of the repository test `test_multi_line_buffering`
(`tests/test_streaming.py`): fragments `Part 1` and
` - Part 2\nNext line` from the `agent` node. -/
def c1events : List StreamEvent :=
  [textEvent "agent" "Part 1", textEvent "agent" " - Part 2\nNext line"]

/-- The input of the repository test
`test_stream_response_chunk_split_after_newline`
(`tests/test_streaming_role.py`): fragments `Hello \n*` and ` World`. -/
def c2events : List StreamEvent :=
  [textEvent "agent" "Hello \n*", textEvent "agent" " World"]

/-- The content shapes accepted by `parse_message_chunk`: a nonempty
block list whose first element is a dict tagged `thinking` or `text`. -/
def acceptedHead : MsgContent → Bool
  | .blocks (.thinking _ :: _) => true
  | .blocks (.text _ :: _) => true
  | _ => false

/-! ### Helper lemmas -/

theorem isPrefixChars_iff (p l : Str) : isPrefixChars p l = true ↔ p <+: l := by
  induction p generalizing l with
  | nil => simp [isPrefixChars]
  | cons a as ih =>
    cases l with
    | nil => simp [isPrefixChars]
    | cons b bs =>
      simp [isPrefixChars, ih, List.cons_prefix_cons]

theorem containsSub_iff (n h : Str) : containsSub n h = true ↔ n <:+: h := by
  induction h with
  | nil =>
    simp [containsSub, List.isEmpty_iff]
  | cons c t ih =>
    simp [containsSub, List.infix_cons_iff, isPrefixChars_iff, ih]

theorem containsSub_eq_decide (n h : Str) :
    containsSub n h = decide (n <:+: h) := by
  by_cases hp : n <:+: h
  · simp [hp, (containsSub_iff n h).mpr hp]
  · rw [decide_eq_false_iff_not.mpr hp]
    exact Bool.eq_false_iff.mpr fun hc => hp ((containsSub_iff n h).mp hc)

theorem GoodSeg.nil (b : Bool) : GoodSeg b [] b := by
  refine ⟨by simp, by simp, trivial⟩

theorem GoodSeg.append {b b1 b2 : Bool} {o1 o2 : List OutItem}
    (h1 : GoodSeg b o1 b1) (h2 : GoodSeg b1 o2 b2) :
    GoodSeg b (o1 ++ o2) b2 := by
  obtain ⟨e1, f1, r1⟩ := h1
  obtain ⟨e2, f2, r2⟩ := h2
  refine ⟨?_, ?_, ?_⟩
  · intro x hx
    rcases List.mem_append.mp hx with h | h
    exacts [e1 x h, e2 x h]
  · rw [f2, f1]
    cases o1 <;> simp
  · cases o1 with
    | nil =>
      have hb1 : b1 = b := by simpa using f1
      subst hb1
      simpa using r2
    | cons x xs =>
      have hb1 : b1 = false := by simpa using f1
      refine ⟨r1.1, ?_⟩
      intro y hy
      rcases List.mem_append.mp hy with h | h
      · exact r1.2 y h
      · cases o2 with
        | nil => simp at h
        | cons z zs =>
          rcases List.mem_cons.mp h with h | h
          · subst h; rw [r2.1, hb1]
          · exact r2.2 y h

theorem setField_nonEmpty (f : Field) (s : Str) (c : Char) :
    optTruthy ((setField {} f (s ++ [c])).content)
      || optTruthy ((setField {} f (s ++ [c])).reasoning_content) = true := by
  have hne : (s ++ [c]).isEmpty = false := by cases s <;> simp
  cases f <;> simp [setField, optTruthy, hne]

theorem setField_role (f : Field) (s : Str) :
    (setField {} f s).role = none := by
  cases f <;> simp [setField]

theorem yield_from_buffer_goodSeg (b : Bool) (buf : Str) (f : Field)
    (fin : Bool) :
    GoodSeg b (yield_from_buffer b buf f fin).1.toList
      (yield_from_buffer b buf f fin).2.2 := by
  unfold yield_from_buffer
  cases hs : (if fin then some (buf, ([] : Str)) else splitLastNL buf) with
  | none => exact GoodSeg.nil b
  | some pr =>
    obtain ⟨ty, rem⟩ := pr
    by_cases he : ty.isEmpty
    · simp only [he, if_true]
      exact GoodSeg.nil b
    · simp only [he, if_false, Bool.false_eq_true]
      have hne := setField_nonEmpty f ty ' '
      have hro := setField_role f (ty ++ [' '])
      cases b with
      | false =>
        simp only [if_false, Bool.false_eq_true]
        refine ⟨?_, by simp, ?_, ?_⟩
        · intro x hx
          simp only [Option.toList_some, List.mem_singleton] at hx
          subst hx
          exact ⟨rfl, by simpa [nonEmptyDelta] using hne⟩
        · simp [hasRole, hro]
        · simp
      | true =>
        simp only [if_true]
        refine ⟨?_, by simp, ?_, ?_⟩
        · intro x hx
          simp only [Option.toList_some, List.mem_singleton] at hx
          subst hx
          refine ⟨rfl, ?_⟩
          simpa [nonEmptyDelta, setField] using hne
        · cases f <;> simp [hasRole, setField]
        · simp

theorem appendFlush_goodSeg (st : StreamState) (f : Field) (t : Str) :
    GoodSeg st.is_first_chunk (appendFlush st f t).2
      (appendFlush st f t).1.is_first_chunk := by
  cases f
  · exact yield_from_buffer_goodSeg st.is_first_chunk (st.content_buffer ++ t) .content false
  · exact yield_from_buffer_goodSeg st.is_first_chunk (st.reasoning_buffer ++ t) .reasoning false

theorem maybeAppend_goodSeg (st : StreamState) (f : Field) (o : Option Str) :
    GoodSeg st.is_first_chunk (maybeAppend st f o).2
      (maybeAppend st f o).1.is_first_chunk := by
  unfold maybeAppend
  by_cases h : optTruthy o
  · simp only [h, if_true]
    exact appendFlush_goodSeg st f (o.getD [])
  · simp only [h, if_false, Bool.false_eq_true]
    exact GoodSeg.nil _

theorem stepEvent_goodSeg (ig : List String) (st : StreamState)
    (e : StreamEvent) :
    GoodSeg st.is_first_chunk (stepEvent ig st e).2
      (stepEvent ig st e).1.is_first_chunk := by
  unfold stepEvent
  by_cases h : ig.contains e.node
  · simp only [h, if_true]
    exact GoodSeg.nil _
  · simp only [h, if_false, Bool.false_eq_true]
    cases parse_message_chunk e.msg with
    | none => exact GoodSeg.nil _
    | some choice =>
      exact GoodSeg.append (maybeAppend_goodSeg st .content choice.delta.content)
        (maybeAppend_goodSeg _ .reasoning choice.delta.reasoning_content)

theorem runEvents_goodSeg (ig : List String) (evts : List StreamEvent)
    (st : StreamState) :
    GoodSeg st.is_first_chunk (runEvents ig st evts).2
      (runEvents ig st evts).1.is_first_chunk := by
  induction evts generalizing st with
  | nil => exact GoodSeg.nil _
  | cons e rest ih =>
    exact GoodSeg.append (stepEvent_goodSeg ig st e) (ih (stepEvent ig st e).1)

theorem finalFlush_goodSeg (st : StreamState) :
    GoodSeg st.is_first_chunk (finalFlush st).1 (finalFlush st).2 := by
  unfold finalFlush
  by_cases h1 : st.content_buffer.isEmpty
  · by_cases h2 : st.reasoning_buffer.isEmpty
    · simp only [h1, h2, if_true]
      exact GoodSeg.append (GoodSeg.nil _) (GoodSeg.nil _)
    · simp only [h1, h2, if_true, if_false, Bool.false_eq_true]
      exact GoodSeg.append (GoodSeg.nil _)
        (yield_from_buffer_goodSeg _ st.reasoning_buffer .reasoning true)
  · by_cases h2 : st.reasoning_buffer.isEmpty
    · simp only [h1, h2, if_true, if_false, Bool.false_eq_true]
      exact GoodSeg.append
        (yield_from_buffer_goodSeg _ st.content_buffer .content true)
        (GoodSeg.nil _)
    · simp only [h1, h2, if_false, Bool.false_eq_true]
      exact GoodSeg.append
        (yield_from_buffer_goodSeg _ st.content_buffer .content true)
        (yield_from_buffer_goodSeg _ st.reasoning_buffer .reasoning true)

theorem stream_response_eq_body (ig : List String) (evts : List StreamEvent) :
    stream_response ig evts = turnBody ig evts ++ [stopChunk, .done] := by
  simp [stream_response, turnBody]

theorem turnBody_goodSeg (ig : List String) (evts : List StreamEvent) :
    ∃ b2, GoodSeg true (turnBody ig evts) b2 := by
  refine ⟨(finalFlush (runEvents ig initStreamState evts).1).2, ?_⟩
  exact GoodSeg.append (runEvents_goodSeg ig evts initStreamState)
    (finalFlush_goodSeg (runEvents ig initStreamState evts).1)

theorem isBodyChunk_not_terminal {x : OutItem} (h : isBodyChunk x = true) :
    isStopChunk x = false ∧ isDoneItem x = false := by
  cases x with
  | chunk d fr =>
    cases fr with
    | none => simp [isStopChunk, isDoneItem]
    | some r => simp [isBodyChunk] at h
  | done => simp [isBodyChunk] at h

theorem goodSeg_role_facts {L : List OutItem} {b2 : Bool}
    (hG : GoodSeg true L b2) :
    (L ++ [stopChunk, .done]).countP hasRole ≤ 1
    ∧ (L ++ [stopChunk, .done]).any nonEmptyDelta
        = (L ++ [stopChunk, .done]).any hasRole
    ∧ (L ++ [stopChunk, .done]).find? nonEmptyDelta
        = (L ++ [stopChunk, .done]).find? hasRole
    ∧ (L ++ [stopChunk, .done]).all (fun x => !hasRole x || nonEmptyDelta x)
        = true := by
  obtain ⟨hAll, -, hrole⟩ := hG
  cases L with
  | nil =>
    simp only [List.nil_append]
    decide
  | cons x xs =>
    obtain ⟨hx, hxs⟩ := hrole
    have hx_ne : nonEmptyDelta x = true := (hAll x (by simp)).2
    refine ⟨?_, ?_, ?_, ?_⟩
    · have h0 : (xs ++ [stopChunk, .done]).countP hasRole = 0 := by
        rw [List.countP_eq_zero]
        intro y hy
        rcases List.mem_append.mp hy with h | h
        · simp [hxs y h]
        · rcases List.mem_cons.mp h with h | h
          · subst h; decide
          · simp only [List.mem_singleton] at h; subst h; decide
      simp [List.cons_append, List.countP_cons, h0, hx]
    · simp [List.cons_append, hx_ne, hx]
    · rw [List.cons_append, List.find?_cons_of_pos _ hx_ne,
        List.find?_cons_of_pos _ hx]
    · rw [List.all_eq_true]
      intro y hy
      rw [List.cons_append, List.mem_cons] at hy
      rcases hy with h | h
      · subst h; simp [hx_ne]
      · rcases List.mem_append.mp h with h | h
        · have := (hAll y (List.mem_cons_of_mem x h)).2
          simp [this]
        · rcases List.mem_cons.mp h with h | h
          · subst h; decide
          · simp only [List.mem_singleton] at h; subst h; decide

theorem runEvents_filter (ig : List String) (evts : List StreamEvent) :
    ∀ st, runEvents ig st evts
      = runEvents ig st (evts.filter fun e2 => !ig.contains e2.node) := by
  induction evts with
  | nil => intro st; rfl
  | cons e rest ih =>
    intro st
    by_cases hm : e.node ∈ ig
    · have hstep : stepEvent ig st e = (st, []) := by simp [stepEvent, hm]
      simp [List.filter_cons, hm, runEvents, hstep, ih st]
    · simp [List.filter_cons, hm, runEvents, ih]

theorem updatesStep_age (u : ProfileUpdates) (m : LCMessage) :
    (updatesStep u m).age = u.age
    ∨ ∃ a, (updatesStep u m).age = some a ∧ 18 ≤ a ∧ a ≤ 120 := by
  cases m with
  | ai c => exact Or.inl rfl
  | system c => exact Or.inl rfl
  | tool c => exact Or.inl rfl
  | human c0 =>
    simp only [updatesStep]
    cases hA : matchAge (lowerStr c0) with
    | none =>
      cases hR : riskFromContent (lowerStr c0) <;>
        cases hH : matchHorizon (lowerStr c0) <;> simp
    | some a =>
      by_cases hg : (18 ≤ a && a ≤ 120) = true
      · right
        have hc : 18 ≤ a ∧ a ≤ 120 := by
          rw [Bool.and_eq_true, decide_eq_true_eq, decide_eq_true_eq] at hg
          exact hg
        refine ⟨a, ?_, hc⟩
        cases hR : riskFromContent (lowerStr c0) <;>
          cases hH : matchHorizon (lowerStr c0) <;> simp [hg]
      · left
        rw [Bool.not_eq_true] at hg
        cases hR : riskFromContent (lowerStr c0) <;>
          cases hH : matchHorizon (lowerStr c0) <;> simp [hg]

theorem extract_age_inv (msgs : List LCMessage) :
    ∀ a, (extract_profile_updates msgs).age = some a → 18 ≤ a ∧ a ≤ 120 := by
  suffices h : ∀ u : ProfileUpdates, (∀ a, u.age = some a → 18 ≤ a ∧ a ≤ 120) →
      ∀ a, (msgs.foldl updatesStep u).age = some a → 18 ≤ a ∧ a ≤ 120 by
    exact h {} (by intro a ha; simp at ha)
  induction msgs with
  | nil => intro u hu; simpa using hu
  | cons m rest ih =>
    intro u hu
    refine ih (updatesStep u m) ?_
    intro a ha
    rcases updatesStep_age u m with h | ⟨a2, h2, hr⟩
    · exact hu a (h ▸ ha)
    · rw [h2] at ha
      obtain rfl := Option.some.inj ha
      exact hr

theorem risk_single (c0 : Str) :
    (extract_profile_updates [.human c0]).risk_tolerance
      = riskFromContent (lowerStr c0) := by
  simp only [extract_profile_updates, List.foldl_cons, List.foldl_nil,
    updatesStep]
  cases hA : matchAge (lowerStr c0) with
  | none =>
    cases hR : riskFromContent (lowerStr c0) <;>
      cases hH : matchHorizon (lowerStr c0) <;> simp
  | some a =>
    by_cases hg : (18 ≤ a && a ≤ 120) = true
    · cases hR : riskFromContent (lowerStr c0) <;>
        cases hH : matchHorizon (lowerStr c0) <;> simp [hg]
    · rw [Bool.not_eq_true] at hg
      cases hR : riskFromContent (lowerStr c0) <;>
        cases hH : matchHorizon (lowerStr c0) <;> simp [hg]

/-! ### Claims -/

/-- C1 (code bug).  The claim — backed by the repository's own test
`test_multi_line_buffering`, which asserts the deltas `Part 1 - Part 2\n`
and `Next line` exactly — says the concatenation of the emitted `content`
deltas equals the newline-normalized concatenation of the non-ignored
events' content text byte-for-byte.  The code instead appends one space
to every emitted delta (`to_yield + " "` in `yield_from_buffer`), so on
the test's own input the emitted deltas carry extra spaces and the
concatenation differs from the reference text. -/
theorem C1_reconstruction_fails_with_trailing_space :
    contentDeltas (stream_response [] c1events)
        = [("Part 1 - Part 2\n ").toList, ("Next line ").toList]
    ∧ turnContentText [] c1events = ("Part 1 - Part 2\nNext line").toList
    ∧ (contentDeltas (stream_response [] c1events)).flatten
        ≠ turnContentText [] c1events :=
  ⟨rfl, rfl, by decide⟩

/-- C2 (code bug).  The claim — backed by the repository's own test
`test_stream_response_chunk_split_after_newline`, which asserts the first
delta is exactly `Hello \n` — says every non-final emitted chunk's delta
ends with a trailing newline and is exactly the buffer prefix up to and
including the last newline.  Because the code appends a space to every
delta, the non-final chunk emitted while processing `c2events` is
`Hello \n ` and does not end with a newline. -/
theorem C2_nonfinal_delta_lacks_trailing_newline :
    (runEvents [] initStreamState c2events).2
        = [.chunk { content := some (("Hello \n ").toList),
                    role := some "assistant" } none]
    ∧ endsWithNewline (("Hello \n ").toList) = false :=
  ⟨rfl, rfl⟩

/-- C3 (confirmed).  Across the chunks emitted for one turn, at most one
carries `role = "assistant"`; a role marker appears iff some chunk with
non-empty delta text is emitted; the first chunk with non-empty delta
text is exactly the first chunk carrying the role marker (the marker is
turn-scoped: `is_first_chunk` is shared by the `content` and
`reasoning_content` flushes); and every chunk carrying the marker has
non-empty delta text. -/
theorem C3_single_turn_scoped_role_marker (ig : List String)
    (evts : List StreamEvent) :
    (stream_response ig evts).countP hasRole ≤ 1
    ∧ (stream_response ig evts).any nonEmptyDelta
        = (stream_response ig evts).any hasRole
    ∧ (stream_response ig evts).find? nonEmptyDelta
        = (stream_response ig evts).find? hasRole
    ∧ (stream_response ig evts).all (fun x => !hasRole x || nonEmptyDelta x)
        = true := by
  obtain ⟨b2, hG⟩ := turnBody_goodSeg ig evts
  rw [stream_response_eq_body]
  exact goodSeg_role_facts hG

/-- C4 (confirmed).  An event whose origin node is in the configured
ignore set produces no output chunk and leaves the stream state
untouched, and consequently the emitted stream equals the stream produced
from the input with all ignored-node events removed. -/
theorem C4_ignored_nodes_never_reach_client (ig : List String)
    (evts : List StreamEvent) (st : StreamState) (e : StreamEvent)
    (h : ig.contains e.node = true) :
    stepEvent ig st e = (st, [])
    ∧ stream_response ig evts
        = stream_response ig (evts.filter fun e2 => !ig.contains e2.node) := by
  have hm : e.node ∈ ig := by simpa using h
  constructor
  · simp [stepEvent, hm]
  · simp only [stream_response, turnBody]
    rw [← runEvents_filter ig evts initStreamState]

/-- Witness for C4, mirroring the repository test
`test_ignore_nodes_filtering`: one `router` event and one `agent` event
with `ignore_nodes = ["router"]`. -/
theorem C4_witness :
    stepEvent ["router"] initStreamState (textEvent "router" "Skip this")
        = (initStreamState, [])
    ∧ stream_response ["router"]
          [textEvent "router" "Skip this", textEvent "agent" "Keep this\n"]
        = stream_response ["router"]
            ([textEvent "router" "Skip this",
              textEvent "agent" "Keep this\n"].filter
              fun e2 => !(["router"].contains e2.node)) :=
  C4_ignored_nodes_never_reach_client ["router"]
    [textEvent "router" "Skip this", textEvent "agent" "Keep this\n"]
    initStreamState (textEvent "router" "Skip this") (by rfl)

/-- C5 (confirmed).  `parse_message_chunk` produces a delta exactly when
the chunk is an `AIMessageChunk` whose content is a nonempty block list
headed by a dict tagged `thinking` or `text`; plain string content always
yields `None` (and such an event is dropped by the event loop without
touching the buffers), and list elements after the first never influence
the result. -/
theorem C5_parse_message_chunk_cases :
    (∀ m : StreamMsg,
      (parse_message_chunk m).isSome
        = (m.isAIMessageChunk && acceptedHead m.content))
    ∧ (∀ (ai : Bool) (s : Str), parse_message_chunk ⟨ai, .str s⟩ = none)
    ∧ (∀ (ai : Bool) (b : ContentBlock) (r r2 : List ContentBlock),
        parse_message_chunk ⟨ai, .blocks (b :: r)⟩
          = parse_message_chunk ⟨ai, .blocks (b :: r2)⟩)
    ∧ (∀ (ig : List String) (st : StreamState) (node : String) (ai : Bool)
        (s : Str), stepEvent ig st ⟨node, ⟨ai, .str s⟩⟩ = (st, [])) := by
  have hstr : ∀ (ai : Bool) (s : Str), parse_message_chunk ⟨ai, .str s⟩ = none := by
    intro ai s
    cases ai <;> cases s <;> simp [parse_message_chunk, contentTruthy]
  refine ⟨?_, hstr, ?_, ?_⟩
  · intro m
    obtain ⟨ai, content⟩ := m
    cases ai
    · simp [parse_message_chunk, acceptedHead]
    · cases content with
      | str s =>
        cases s <;> simp [parse_message_chunk, contentTruthy, acceptedHead]
      | blocks items =>
        cases items with
        | nil => simp [parse_message_chunk, contentTruthy, acceptedHead]
        | cons b t =>
          cases b <;> simp [parse_message_chunk, contentTruthy, acceptedHead]
  · intro ai b r r2
    cases ai <;> cases b <;> simp [parse_message_chunk, contentTruthy]
  · intro ig st node ai s
    by_cases hm : node ∈ ig
    · simp [stepEvent, hm]
    · simp [stepEvent, hm, hstr ai s]

/-- C6 (confirmed).  When the routed intent is absent or any value other
than `small_talk` and `main_agent`, the router's conditional edge returns
`end` and the graph transitions directly to `END`: neither the smalltalk
node nor the agent node is entered, and a turn without node emissions
yields only the closing `stop` chunk and `[DONE]` sentinel. -/
theorem C6_unrecognized_intent_terminates (intent : Option String)
    (h : ∀ s, intent = some s → s ≠ "small_talk" ∧ s ≠ "main_agent") :
    routerNext intent = GraphNode.terminal
    ∧ routerNext intent ≠ GraphNode.smalltalk
    ∧ routerNext intent ≠ GraphNode.agent
    ∧ (∀ ig : List String, stream_response ig [] = [stopChunk, OutItem.done]) := by
  have hterm : routerNext intent = GraphNode.terminal := by
    cases intent with
    | none => rfl
    | some s =>
      obtain ⟨h1, h2⟩ := h s rfl
      by_cases he : s = ""
      · simp [routerNext, should_advice, routerEdgeMap, he]
      · simp [routerNext, should_advice, routerEdgeMap, he, h1, h2]
  refine ⟨hterm, ?_, ?_, fun ig => rfl⟩
  · rw [hterm]; decide
  · rw [hterm]; decide

/-- Witness for C6 at the concrete unrecognized intent value `weather`. -/
theorem C6_witness :
    routerNext (some "weather") = GraphNode.terminal
    ∧ routerNext (some "weather") ≠ GraphNode.smalltalk
    ∧ routerNext (some "weather") ≠ GraphNode.agent
    ∧ (∀ ig : List String, stream_response ig [] = [stopChunk, OutItem.done]) :=
  C6_unrecognized_intent_terminates (some "weather") (by
    intro s hs
    obtain rfl := Option.some.inj hs
    exact ⟨by decide, by decide⟩)

/-- C7 (confirmed).  Every turn's emitted sequence — also a turn emitting
no content chunk at all — is a list of finish-less body chunks followed
by exactly one chunk with `finish_reason = "stop"` whose delta carries no
content, reasoning or role field, followed by the `[DONE]` sentinel, with
nothing after it. -/
theorem C7_terminated_by_stop_and_done (ig : List String)
    (evts : List StreamEvent) :
    ∃ pre, stream_response ig evts = pre ++ [stopChunk, OutItem.done]
      ∧ pre.all isBodyChunk = true
      ∧ (stream_response ig evts).countP isStopChunk = 1
      ∧ (stream_response ig evts).countP isDoneItem = 1
      ∧ stopChunk = OutItem.chunk
          { content := none, reasoning_content := none, role := none }
          (some "stop") := by
  obtain ⟨b2, hG⟩ := turnBody_goodSeg ig evts
  obtain ⟨hAll, -, -⟩ := hG
  have hbody : (turnBody ig evts).all isBodyChunk = true := by
    rw [List.all_eq_true]
    intro y hy
    exact (hAll y hy).1
  have h0s : (turnBody ig evts).countP isStopChunk = 0 := by
    rw [List.countP_eq_zero]
    intro y hy
    simp [(isBodyChunk_not_terminal ((hAll y hy).1)).1]
  have h0d : (turnBody ig evts).countP isDoneItem = 0 := by
    rw [List.countP_eq_zero]
    intro y hy
    simp [(isBodyChunk_not_terminal ((hAll y hy).1)).2]
  refine ⟨turnBody ig evts, stream_response_eq_body ig evts, hbody, ?_, ?_, rfl⟩
  · rw [stream_response_eq_body, List.countP_append, h0s]
    decide
  · rw [stream_response_eq_body, List.countP_append, h0d]
    decide

/-- C8 (confirmed).  Whenever extraction returns an age it lies in
[18, 120], and a message whose leftmost age-pattern match is out of range
contributes no age field (the pattern loop still breaks, so no later
pattern is consulted). -/
theorem C8_age_bounds :
    (∀ (msgs : List LCMessage) (a : Nat),
      (extract_profile_updates msgs).age = some a → 18 ≤ a ∧ a ≤ 120)
    ∧ (∀ (s : Str) (a : Nat), matchAge (lowerStr s) = some a →
        ¬(18 ≤ a ∧ a ≤ 120) → (extract_profile_updates [.human s]).age = none) := by
  constructor
  · intro msgs a
    exact extract_age_inv msgs a
  · intro s a hm hr
    have hb : (18 ≤ a && a ≤ 120) = false := by
      rw [Bool.and_eq_false_iff]
      rcases Decidable.not_and_iff_or_not.mp hr with h | h
      · exact Or.inl (decide_eq_false h)
      · exact Or.inr (decide_eq_false h)
    simp only [extract_profile_updates, List.foldl_cons, List.foldl_nil,
      updatesStep, hm, hb]
    cases hR : riskFromContent (lowerStr s) <;>
      cases hH : matchHorizon (lowerStr s) <;> simp

/-- Witness for C8: the spec's own scenarios — `i am 35 years old` yields
age 35 (in range), and `i am 200` matches 200, which is rejected, so the
extraction carries no age field. -/
theorem C8_witness :
    (18 ≤ 35 ∧ 35 ≤ 120)
    ∧ (extract_profile_updates [.human (("i am 200").toList)]).age = none :=
  ⟨C8_age_bounds.1 [.human (("i am 35 years old").toList)] 35 (by rfl),
   C8_age_bounds.2 (("i am 200").toList) 200 (by rfl) (by omega)⟩

/-- C9 (corrected) counterexample.  The claim says the direct phrase
`prefer conservative` sets conservative risk tolerance, but the code's
branch tests for the literal `i prefer conservative`: the message
`we prefer conservative options` contains `prefer conservative` yet the
extraction assigns no risk tolerance at all (so in particular not
`conservative` as the claim requires). -/
theorem C9_counterexample :
    containsSub (("prefer conservative").toList)
        (lowerStr (("we prefer conservative options").toList)) = true
    ∧ (extract_profile_updates
        [.human (("we prefer conservative options").toList)]).risk_tolerance
      = none :=
  ⟨rfl, rfl⟩

/-- C9 (corrected) amended claim.  For a single user message, risk
tolerance is assigned by the first satisfied branch of the chain:
`conservative` co-occurring with `risk`, then `aggressive` with `risk`,
then `moderate` with `risk`, then the direct phrases
`i prefer conservative` / `low risk` (conservative), then
`i prefer aggressive` / `high risk` (aggressive); otherwise no
assignment.  The substring conditions are stated with Mathlib's
`List.IsInfix` over the lowercased content. -/
theorem C9_risk_tolerance_branch_order (c0 : Str) :
    (extract_profile_updates [.human c0]).risk_tolerance
      = (if ("conservative").toList <:+: lowerStr c0
            ∧ ("risk").toList <:+: lowerStr c0 then
          some RiskTolerance.conservative
        else if ("aggressive").toList <:+: lowerStr c0
            ∧ ("risk").toList <:+: lowerStr c0 then
          some RiskTolerance.aggressive
        else if ("moderate").toList <:+: lowerStr c0
            ∧ ("risk").toList <:+: lowerStr c0 then
          some RiskTolerance.moderate
        else if ("i prefer conservative").toList <:+: lowerStr c0
            ∨ ("low risk").toList <:+: lowerStr c0 then
          some RiskTolerance.conservative
        else if ("i prefer aggressive").toList <:+: lowerStr c0
            ∨ ("high risk").toList <:+: lowerStr c0 then
          some RiskTolerance.aggressive
        else none) := by
  rw [risk_single]
  simp only [riskFromContent, containsSub_eq_decide, Bool.and_eq_true,
    Bool.or_eq_true, decide_eq_true_eq]

/-- C10 (confirmed).  `check_profile_node` never overwrites a present
profile field with an absent one: whenever extraction over the state's
messages detects no value for a field, the merged profile keeps the prior
profile's value of that field. -/
theorem C10_merge_never_clears_fields (p : UserProfile)
    (msgs : List LCMessage) (intent : Option String) (pc : Bool) :
    ((extract_profile_updates msgs).age = none →
      (check_profile_node ⟨intent, msgs, some p, pc⟩).user_profile.age = p.age)
    ∧ ((extract_profile_updates msgs).risk_tolerance = none →
      (check_profile_node ⟨intent, msgs, some p, pc⟩).user_profile.risk_tolerance
        = p.risk_tolerance)
    ∧ ((extract_profile_updates msgs).time_horizon_years = none →
      (check_profile_node ⟨intent, msgs, some p, pc⟩).user_profile.time_horizon_years
        = p.time_horizon_years) := by
  refine ⟨?_, ?_, ?_⟩ <;> intro h <;>
    simp only [check_profile_node, Option.getD_some] <;>
    split <;> simp [mergeProfile, h]

/-- Witness for C10: a complete prior profile and a message detecting
nothing; all three fields survive the merge pass. -/
theorem C10_witness :
    (check_profile_node ⟨none, [.human (("hello there").toList)],
        some { age := some 40, risk_tolerance := some RiskTolerance.conservative,
               time_horizon_years := some 12, financial_goals := [] },
        false⟩).user_profile.age = some 40
    ∧ (check_profile_node ⟨none, [.human (("hello there").toList)],
        some { age := some 40, risk_tolerance := some RiskTolerance.conservative,
               time_horizon_years := some 12, financial_goals := [] },
        false⟩).user_profile.risk_tolerance = some RiskTolerance.conservative
    ∧ (check_profile_node ⟨none, [.human (("hello there").toList)],
        some { age := some 40, risk_tolerance := some RiskTolerance.conservative,
               time_horizon_years := some 12, financial_goals := [] },
        false⟩).user_profile.time_horizon_years = some 12 :=
  ⟨(C10_merge_never_clears_fields
      { age := some 40, risk_tolerance := some RiskTolerance.conservative,
        time_horizon_years := some 12, financial_goals := [] }
      [.human (("hello there").toList)] none false).1 (by rfl),
   (C10_merge_never_clears_fields
      { age := some 40, risk_tolerance := some RiskTolerance.conservative,
        time_horizon_years := some 12, financial_goals := [] }
      [.human (("hello there").toList)] none false).2.1 (by rfl),
   (C10_merge_never_clears_fields
      { age := some 40, risk_tolerance := some RiskTolerance.conservative,
        time_horizon_years := some 12, financial_goals := [] }
      [.human (("hello there").toList)] none false).2.2 (by rfl)⟩

end PrudentWealth
